import Mathlib

/-!
Shallow embedding of the deep-link / retry core of the `youwee` repository
(`src/lib/external-link.ts` and `src/lib/download-retry.ts`).

Strings are modelled through their character lists (`String.data`).  The
JavaScript platform primitives the source relies on (`String.prototype`
methods, the WHATWG `URL` / `URLSearchParams` classes, the `RegExp` engine)
are not repository code; they are modelled here as executable Lean
functions restricted to the behaviour the repository exercises:

* `parseURL` models `new URL(...)` for absolute URLs of the shape
  `scheme://host[/path][?query]`.  Simplifications (documented where they
  matter): no percent-decoding, no userinfo/port splitting, no fragment
  component, and the scheme is kept as written (WHATWG lowercases it);
  query parameters are parsed by splitting on `&` and on the first `=`,
  skipping empty segments, exactly as the `application/x-www-form-urlencoded`
  parser does minus byte-level decoding.
* the regular-expression pattern lists of `download-retry.ts` are abstracted
  as lists of boolean matchers (the claims about them are structural and
  hold for every matcher semantics).
* JavaScript numbers reaching the clamp helpers are modelled as integers
  plus `NaN`/`undefined`.
-/

namespace Youwee

/-- Decidable test that `p` is a leading segment of `l` (model of
`String.prototype.startsWith` at the character-list level). -/
def listLeads : List Char → List Char → Bool
  | [], _ => true
  | _ :: _, [] => false
  | p :: ps, c :: cs => p == c && listLeads ps cs

/-- Decidable test that `p` is a trailing segment of `l` (model of
`String.prototype.endsWith` at the character-list level). -/
def listTrails (p l : List Char) : Bool := listLeads p.reverse l.reverse

/-- Model of `String.prototype.startsWith`. -/
def strStartsWith (s p : String) : Bool := listLeads p.data s.data

/-- Model of `String.prototype.endsWith`. -/
def strEndsWith (s p : String) : Bool := listTrails p.data s.data

/-- Model of `String.prototype.toLowerCase` (character-wise lowering; the
hostnames and tags the repository lowercases are ASCII). -/
def strToLower (s : String) : String := ⟨s.data.map Char.toLower⟩

/-- Model of `String.prototype.includes` for a single character, which is
the only form the repository uses (`host.includes(':')`). -/
def strContainsChar (s : String) (c : Char) : Bool := s.data.contains c

/-- Whitespace set used by the model of `String.prototype.trim`. -/
def jsWS (c : Char) : Bool := c == ' ' || c == '\t' || c == '\n' || c == '\r'

/-- Trim at the character-list level: drop leading whitespace, then drop
trailing whitespace. -/
def trimChars (l : List Char) : List Char :=
  ((l.dropWhile jsWS).reverse.dropWhile jsWS).reverse

/-- Model of `String.prototype.trim`. -/
def strTrim (s : String) : String := ⟨trimChars s.data⟩

/-- Model of the Javascript `length` of a string.  (JavaScript counts UTF-16
code units, this model counts code points; they agree outside astral-plane
characters, which no claim exercises.) -/
def strLength (s : String) : Nat := s.data.length

/-- Split a character list at the first character failing `p`: returns the
longest all-`p` leading segment and the remainder. -/
def spanP (p : Char → Bool) : List Char → List Char × List Char
  | [] => ([], [])
  | c :: cs =>
    if p c then
      let t := spanP p cs
      (c :: t.1, t.2)
    else ([], c :: cs)

/-- Split a character list on `&` (the form-urlencoded segment separator). -/
def splitSegs : List Char → List (List Char)
  | [] => [[]]
  | c :: cs =>
    if c == '&' then [] :: splitSegs cs
    else
      match splitSegs cs with
      | [] => [[c]]
      | s :: rest => (c :: s) :: rest

/-- Join segments with `&` (inverse of `splitSegs` on `&`-free segments). -/
def joinAmp : List (List Char) → List Char
  | [] => []
  | [s] => s
  | s :: t :: rest => s ++ '&' :: joinAmp (t :: rest)

/-- Parse one `key=value` segment: the key is everything before the first
`=`, the value the rest (empty when no `=` is present). -/
def parseSeg (seg : List Char) : List Char × List Char :=
  match spanP (fun c => c != '=') seg with
  | (k, []) => (k, [])
  | (k, _ :: v) => (k, v)

/-- Model of the `application/x-www-form-urlencoded` parser backing
`URLSearchParams`: split on `&`, skip empty segments, split each segment at
its first `=` (byte-level percent-decoding is not modelled). -/
def parseQueryList (cs : List Char) : List (List Char × List Char) :=
  (splitSegs cs).filterMap fun seg =>
    if seg.isEmpty then none else some (parseSeg seg)

/-- Serialize a query pair list back to `k=v&k=v` form (model of the
form-urlencoded serializer used by `URL.prototype.toString` after a
`URLSearchParams` mutation, minus percent-encoding). -/
def serializeQueryChars (ps : List (List Char × List Char)) : List Char :=
  joinAmp (ps.map fun kv => kv.1 ++ '=' :: kv.2)

/-- A parsed URL record: the components of the WHATWG `URL` object the
repository reads (`protocol`, `hostname`, `pathname`, `searchParams`). -/
structure URLRec where
  scheme : List Char
  host : List Char
  path : List Char
  query : List (List Char × List Char)
deriving DecidableEq

/-- Scheme characters admitted after the first (WHATWG `scheme char`). -/
def schemeChar (c : Char) : Bool :=
  c.isAlpha || c.isDigit || c == '+' || c == '-' || c == '.'

/-- A valid scheme: nonempty, leading alphabetic character, scheme
characters throughout. -/
def validScheme : List Char → Bool
  | [] => false
  | c :: cs => c.isAlpha && cs.all schemeChar

/-- Continue parsing after `scheme://` once a path has begun. -/
def parsePathAndQuery (scheme host rest3 : List Char) : Option URLRec :=
  match spanP (fun c => c != '?') rest3 with
  | (path, []) => some ⟨scheme, host, path, []⟩
  | (path, _ :: qs) => some ⟨scheme, host, path, parseQueryList qs⟩

/-- Continue parsing after `scheme://`: host up to `/` or `?`, then path
and query. -/
def parseAfterScheme (scheme rest2 : List Char) : Option URLRec :=
  match spanP (fun c => c != '/' && c != '?') rest2 with
  | (host, []) => some ⟨scheme, host, [], []⟩
  | (host, '?' :: qs) => some ⟨scheme, host, [], parseQueryList qs⟩
  | (host, rest3) => parsePathAndQuery scheme host rest3

/-- Model of the WHATWG URL parser (`new URL(...)`) restricted to absolute
`scheme://host[/path][?query]` inputs; anything else is a parse failure
(JavaScript: a thrown `TypeError`, observed by the repository only through
`try`/`catch`). -/
def parseURLChars (cs : List Char) : Option URLRec :=
  match spanP (fun c => c != ':') cs with
  | (schemeRaw, ':' :: '/' :: '/' :: rest2) =>
    if validScheme schemeRaw then parseAfterScheme schemeRaw rest2 else none
  | _ => none

/-- String-level entry point of the URL-parser model. -/
def parseURL (s : String) : Option URLRec := parseURLChars s.data

/-- The query part of a serialized URL (empty when there are no pairs). -/
def queryPartChars (ps : List (List Char × List Char)) : List Char :=
  match ps with
  | [] => []
  | _ => '?' :: serializeQueryChars ps

/-- Model of `URL.prototype.toString` over the record. -/
def serializeURL (u : URLRec) : List Char :=
  u.scheme ++ ':' :: '/' :: '/' :: (u.host ++ u.path ++ queryPartChars u.query)

/-- String-level serializer (`parsed.toString()`). -/
def urlToString (u : URLRec) : String := ⟨serializeURL u⟩

/-- Model of `URL.prototype.protocol`: the scheme followed by `:`. -/
def protocol (u : URLRec) : String := ⟨u.scheme ++ [':']⟩

/-- Model of `URL.prototype.hostname`. -/
def hostname (u : URLRec) : String := ⟨u.host⟩

/-- Model of `URLSearchParams.prototype.get`: first value for the key, or
none. -/
def getParam (u : URLRec) (k : String) : Option String :=
  (u.query.find? fun kv => kv.1 == k.data).map fun kv => (⟨kv.2⟩ : String)

/-- Model of `URLSearchParams.prototype.has`. -/
def hasParam (u : URLRec) (k : String) : Bool :=
  (u.query.find? fun kv => kv.1 == k.data).isSome

/-- Model of `URLSearchParams.prototype.delete`: removes every pair with
the key. -/
def deleteParam (u : URLRec) (k : String) : URLRec :=
  { u with query := u.query.filter fun kv => !(kv.1 == k.data) }

/-! ### `src/lib/external-link.ts` -/

/-- `ExternalLinkTarget`: `'auto' | 'youtube' | 'universal'`. -/
inductive ExternalLinkTarget where
  | auto
  | youtube
  | universal
deriving DecidableEq

/-- `ExternalLinkAction`: `'download_now' | 'queue_only'`. -/
inductive ExternalLinkAction where
  | download_now
  | queue_only
deriving DecidableEq

/-- `ExternalRouteTarget`: `'youtube' | 'universal'`. -/
inductive ExternalRouteTarget where
  | youtube
  | universal
deriving DecidableEq

/-- Modelled from the spec: the `ExternalEnqueueOptions` type lives in
`src/lib/types.ts`, which is not among the provided sources.  Per the spec
it is "either `{ mediaType: 'audio', quality: 'audio', audioBitrate:
'128'|'auto' }` or `{ mediaType: 'video', quality: one of a fixed closed
set }`; never both; `mediaType` discriminates the variant", so it is an
inductive with one constructor per variant, carrying the string-literal
fields. -/
inductive ExternalEnqueueOptions where
  | audio (quality : String) (audioBitrate : String)
  | video (quality : String)
deriving DecidableEq

/-- `ExternalLinkRequest` (external-link.ts, lines 8–15). -/
structure ExternalLinkRequest where
  raw : String
  url : String
  target : ExternalLinkTarget
  action : ExternalLinkAction
  enqueueOptions : ExternalEnqueueOptions
  source : Option String
deriving DecidableEq

/-- `MAX_EXTERNAL_DEEPLINK_LENGTH` (external-link.ts, line 17). -/
def MAX_EXTERNAL_DEEPLINK_LENGTH : Nat := 4096

/-- `TRUSTED_EXTERNAL_SOURCES` (external-link.ts, line 18). -/
def TRUSTED_EXTERNAL_SOURCES : List String := ["ext-chromium", "ext-firefox"]

/-- `normalizeExternalSource` (external-link.ts, lines 20–24).  The argument
is `Option String` because `searchParams.get` can return `null`. -/
def normalizeExternalSource (source : Option String) : Option String :=
  match source with
  | none => none
  | some s =>
    let normalized := strToLower (strTrim s)
    if normalized = "" then none
    else if normalized ∈ TRUSTED_EXTERNAL_SOURCES then some normalized
    else none

/-- `isTrustedExternalSource` (external-link.ts, lines 26–28). -/
def isTrustedExternalSource (source : Option String) : Bool :=
  match source with
  | none => false
  | some s => s ∈ TRUSTED_EXTERNAL_SOURCES

/-- The `^\[` strip of `isPrivateOrLocalHost`: `replace(/^\[/, '')` removes
a single leading `[` when present. -/
def stripLeadingBracket (s : String) : String :=
  match s.data with
  | '[' :: rest => ⟨rest⟩
  | _ => s

/-- The `\]$` strip of `isPrivateOrLocalHost`: `replace(/\]$/, '')` removes
a single trailing `]` when present. -/
def stripTrailingBracket (s : String) : String :=
  if strEndsWith s "]" then ⟨s.data.dropLast⟩ else s

/-- The sixteen textual octet blocks matched by the source's regular
expression `^172\.(1[6-9]|2\d|3[0-1])\.`. -/
def rfc1918Blocks172 : List String :=
  ["172.16.", "172.17.", "172.18.", "172.19.", "172.20.", "172.21.",
   "172.22.", "172.23.", "172.24.", "172.25.", "172.26.", "172.27.",
   "172.28.", "172.29.", "172.30.", "172.31."]

/-- `isPrivateOrLocalHost` (external-link.ts, lines 30–61). -/
def isPrivateOrLocalHost (hostnameArg : String) : Bool :=
  let host := stripTrailingBracket (stripLeadingBracket (strToLower hostnameArg))
  if host = "" then true
  else if host = "localhost" ∨ host = "0.0.0.0" ∨ host = "::" ∨ host = "::1"
      ∨ strEndsWith host ".localhost" ∨ strEndsWith host ".local"
      ∨ strEndsWith host ".internal" then true
  else if strStartsWith host "127." ∨ strStartsWith host "10."
      ∨ strStartsWith host "192.168." ∨ strStartsWith host "169.254."
      ∨ rfc1918Blocks172.any (fun p => strStartsWith host p) then true
  else if strContainsChar host ':' then
    strStartsWith host "fe80:" || strStartsWith host "fc" || strStartsWith host "fd"
  else false

/-- `isPublicHttpUrl` (external-link.ts, lines 63–73). -/
def isPublicHttpUrl (url : String) : Bool :=
  match parseURL url with
  | none => false
  | some parsed =>
    if protocol parsed ≠ "http:" ∧ protocol parsed ≠ "https:" then false
    else !isPrivateOrLocalHost (hostname parsed)

/-- The `allowedVideoQualities` set of `parseEnqueueOptions`
(external-link.ts, lines 88–97). -/
def allowedVideoQualities : List String :=
  ["best", "8k", "4k", "2k", "1080", "720", "480", "360"]

/-- `parseEnqueueOptions` (external-link.ts, lines 75–106). -/
def parseEnqueueOptions (parsed : URLRec) : ExternalEnqueueOptions :=
  let media : String := if getParam parsed "media" = some "audio" then "audio" else "video"
  let qualityParam : String := (getParam parsed "quality").getD ""
  if media = "audio" then
    let audioBitrate : String := if qualityParam = "128" then "128" else "auto"
    .audio "audio" audioBitrate
  else
    let quality : String :=
      if qualityParam ∈ allowedVideoQualities then qualityParam else "best"
    .video quality

/-- `isYouTubeHost` (external-link.ts, lines 108–116). -/
def isYouTubeHost (hostnameArg : String) : Bool :=
  hostnameArg = "youtube.com" ∨ hostnameArg = "www.youtube.com"
    ∨ hostnameArg = "m.youtube.com" ∨ hostnameArg = "music.youtube.com"
    ∨ hostnameArg = "youtu.be"

/-- `isYouTubeUrl` (external-link.ts, lines 118–125). -/
def isYouTubeUrl (url : String) : Bool :=
  match parseURL url with
  | none => false
  | some parsed => isYouTubeHost (strToLower (hostname parsed))

/-- `normalizeExternalVideoUrl` (external-link.ts, lines 127–142). -/
def normalizeExternalVideoUrl (url : String) : String :=
  match parseURL url with
  | none => url
  | some parsed =>
    let host := strToLower (hostname parsed)
    if isYouTubeHost host then
      let hasVideoId := hasParam parsed "v" || host = "youtu.be"
      if hasVideoId then
        urlToString (deleteParam (deleteParam parsed "list") "index")
      else urlToString parsed
    else urlToString parsed

/-- `parseExternalDeepLink` (external-link.ts, lines 144–189).  The
string-level pre-filter `isSafeUrl` is imported by the source from
`src/lib/utils.ts`, which is not among the provided sources; the spec
treats it as an external collaborator, so it is a parameter here. -/
def parseExternalDeepLink (isSafeUrl : String → Bool) (raw : String) :
    Option ExternalLinkRequest :=
  if raw = "" ∨ strLength raw > MAX_EXTERNAL_DEEPLINK_LENGTH then none
  else
    match parseURL raw with
    | none => none
    | some parsed =>
      if protocol parsed ≠ "youwee:" ∨ hostname parsed ≠ "download" then none
      else if getParam parsed "v" ≠ some "1" then none
      else
        match (getParam parsed "url").map strTrim with
        | none => none
        | some urlParam =>
          if urlParam = "" ∨ ¬ isSafeUrl urlParam then none
          else
            let normalizedUrl := normalizeExternalVideoUrl urlParam
            if ¬ isSafeUrl normalizedUrl ∨ ¬ isPublicHttpUrl normalizedUrl then none
            else
              let target : ExternalLinkTarget :=
                match getParam parsed "target" with
                | some "youtube" => .youtube
                | some "universal" => .universal
                | _ => .auto
              let action : ExternalLinkAction :=
                if getParam parsed "action" = some "queue_only" then .queue_only
                else .download_now
              some
                { raw := raw
                  url := normalizedUrl
                  target := target
                  action := action
                  enqueueOptions := parseEnqueueOptions parsed
                  source := normalizeExternalSource (getParam parsed "source") }

/-- `resolveExternalRouteTarget` (external-link.ts, lines 191–199). -/
def resolveExternalRouteTarget (preferredTarget : ExternalLinkTarget)
    (url : String) : ExternalRouteTarget :=
  match preferredTarget with
  | .youtube => .youtube
  | .universal => .universal
  | .auto => if isYouTubeUrl url then .youtube else .universal

/-! ### `src/lib/download-retry.ts` -/

/-- `RETRYABLE_PATTERNS` / `NON_RETRYABLE_PATTERNS` are arrays of platform
`RegExp` values; the regular-expression engine is a platform primitive, so
a pattern is modelled as its induced boolean matcher and the two arrays as
matcher lists.  `patterns.some((pattern) => pattern.test(text))`. -/
def patternListMatches (patterns : List (String → Bool)) (text : String) : Bool :=
  patterns.any fun pattern => pattern text

/-- `isNonRetryableError` (download-retry.ts, lines 67–71), parameterized
by the non-retryable matcher list. -/
def isNonRetryableError (nonRetryablePatterns : List (String → Bool))
    (message : String) : Bool :=
  let text := strTrim message
  if text = "" then false
  else patternListMatches nonRetryablePatterns text

/-- `isRetryableError` (download-retry.ts, lines 73–77), parameterized by
both matcher lists: blank messages and messages matching the non-retryable
set are rejected before the retryable set is consulted. -/
def isRetryableError (nonRetryablePatterns retryablePatterns : List (String → Bool))
    (message : String) : Bool :=
  let text := strTrim message
  if text = "" ∨ isNonRetryableError nonRetryablePatterns text then false
  else patternListMatches retryablePatterns text

/-- One `{ min, max, default }` row of `AUTO_RETRY_LIMITS`. -/
structure RetryLimitBounds where
  min : Int
  max : Int
  default : Int

/-- The two rows of `AUTO_RETRY_LIMITS` (download-retry.ts, lines 36–39). -/
structure AutoRetryLimits where
  maxAttempts : RetryLimitBounds
  delaySeconds : RetryLimitBounds

/-- `AUTO_RETRY_LIMITS` (download-retry.ts, lines 36–39). -/
def AUTO_RETRY_LIMITS : AutoRetryLimits :=
  { maxAttempts := { min := 1, max := 10, default := 3 }
    delaySeconds := { min := 1, max := 60, default := 5 } }

/-- A JavaScript number reaching the clamp helpers: `NaN`, `undefined`
(both falsy, like `0`), or an integral numeric value.  (The repository only
ever passes persisted integral settings; non-integral values are outside
the model.) -/
inductive JSNumber where
  | nan
  | undef
  | num (x : Int)
deriving DecidableEq

/-- JavaScript falsiness of a `JSNumber` (`NaN`, `undefined` and `0` are
falsy). -/
def JSNumber.falsy : JSNumber → Bool
  | .nan => true
  | .undef => true
  | .num x => x == 0

/-- `value || default` on a `JSNumber`: the default replaces any falsy
value. -/
def jsOrDefault (value : JSNumber) (d : Int) : Int :=
  match value with
  | .num x => if x = 0 then d else x
  | _ => d

/-- `clampAutoRetryMaxAttempts` (download-retry.ts, lines 41–44). -/
def clampAutoRetryMaxAttempts (value : JSNumber) : Int :=
  max AUTO_RETRY_LIMITS.maxAttempts.min
    (min AUTO_RETRY_LIMITS.maxAttempts.max
      (jsOrDefault value AUTO_RETRY_LIMITS.maxAttempts.default))

/-- `clampAutoRetryDelaySeconds` (download-retry.ts, lines 46–49). -/
def clampAutoRetryDelaySeconds (value : JSNumber) : Int :=
  max AUTO_RETRY_LIMITS.delaySeconds.min
    (min AUTO_RETRY_LIMITS.delaySeconds.max
      (jsOrDefault value AUTO_RETRY_LIMITS.delaySeconds.default))

/-- The `message` property of a non-null object reaching
`normalizeErrorMessage`: either a string or a value of some other type. -/
inductive ErrMessageField where
  | strMsg (s : String)
  | nonStrMsg
deriving DecidableEq

/-- An arbitrary JavaScript value reaching `normalizeErrorMessage`,
abstracted to the observations the function makes: whether it is a string,
whether it is a truthy object and what its `message` property is, and what
`String(error)` yields (`none` models a throwing conversion, e.g. a revoked
proxy or a poisoned `toString`). -/
inductive ErrValue where
  | str (s : String)
  | obj (message : Option ErrMessageField) (toStr : Option String)
  | other (toStr : Option String)
deriving DecidableEq

/-- The `String(error)`-with-fallback tail of `normalizeErrorMessage`
(download-retry.ts, lines 59–64): `raw || 'Unknown error'`, and
`'Unknown error'` when the conversion throws. -/
def stringConversionFallback (toStr : Option String) : String :=
  match toStr with
  | none => "Unknown error"
  | some raw => if raw = "" then "Unknown error" else raw

/-- `normalizeErrorMessage` (download-retry.ts, lines 51–65). -/
def normalizeErrorMessage (error : ErrValue) : String :=
  match error with
  | .str s => s
  | .obj message toStr =>
    match message with
    | some (.strMsg m) =>
      if strTrim m ≠ "" then m else stringConversionFallback toStr
    | _ => stringConversionFallback toStr
  | .other toStr => stringConversionFallback toStr

/-- The body of the `for` loop of `waitWithCancellation` (download-retry.ts,
lines 86–92): `remaining` counts down, `pollIdx` numbers the successive
calls to `isCancelled`, and the returned list records the arguments of the
successive `onTick` invocations.  Each iteration polls cancellation before
its one-second sleep; after the loop one final poll decides the result. -/
def waitLoop (isCancelled : Nat → Bool) : Nat → Nat → Bool × List Nat
  | 0, pollIdx => (!isCancelled pollIdx, [])
  | remaining + 1, pollIdx =>
    if isCancelled pollIdx then (false, [])
    else
      let t := waitLoop isCancelled remaining (pollIdx + 1)
      (t.1, (remaining + 1) :: t.2)

/-- `waitWithCancellation` (download-retry.ts, lines 79–93).  The
suspension (`await setTimeout`) is modelled by indexing the cancellation
predicate by poll number; the optional `onTick` observer is modelled by
returning the list of values it would receive. -/
def waitWithCancellation (ms : Nat) (isCancelled : Nat → Bool) : Bool × List Nat :=
  let totalSeconds := (ms + 999) / 1000
  waitLoop isCancelled totalSeconds 0

/-- Well-formedness of a query pair list: no pair smuggles a separator
(`&` anywhere, `=` in a key) that would change how its serialization
re-parses.  Every list produced by `parseQueryList` satisfies this. -/
def QueryWF (ps : List (List Char × List Char)) : Prop :=
  ∀ kv ∈ ps, '&' ∉ kv.1 ∧ '=' ∉ kv.1 ∧ '&' ∉ kv.2

/-- Well-formedness of a `URLRec`: the invariants every record produced by
`parseURLChars` satisfies, and exactly what is needed for its
serialization to re-parse to itself. -/
structure URLWF (u : URLRec) : Prop where
  scheme_valid : validScheme u.scheme = true
  host_ok : ∀ c ∈ u.host, c ≠ '/' ∧ c ≠ '?'
  path_shape : u.path = [] ∨ ∃ rest, u.path = '/' :: rest
  path_ok : ∀ c ∈ u.path, c ≠ '?'
  query_wf : QueryWF u.query

/-! ### Spec-side characterizations -/

/-- The spec's characterization of the Host Safety Classifier, written
after the claim's words: after lowercasing and stripping surrounding
brackets, the host is empty; equals `localhost`, `0.0.0.0`, `::` or `::1`;
ends with `.localhost`, `.local` or `.internal`; starts with one of the
textual IPv4 blocks; or contains a colon and starts with `fe80:`, `fc` or
`fd`. -/
def specPrivateOrLocalHost (h : String) : Prop :=
  let host := stripTrailingBracket (stripLeadingBracket (strToLower h))
  host = "" ∨ host = "localhost" ∨ host = "0.0.0.0" ∨ host = "::" ∨ host = "::1"
    ∨ strEndsWith host ".localhost" = true ∨ strEndsWith host ".local" = true
    ∨ strEndsWith host ".internal" = true
    ∨ strStartsWith host "127." = true ∨ strStartsWith host "10." = true
    ∨ strStartsWith host "192.168." = true ∨ strStartsWith host "169.254." = true
    ∨ rfc1918Blocks172.any (fun p => strStartsWith host p) = true
    ∨ (strContainsChar host ':' = true
        ∧ (strStartsWith host "fe80:" = true ∨ strStartsWith host "fc" = true
            ∨ strStartsWith host "fd" = true))

instance (h : String) : Decidable (specPrivateOrLocalHost h) := by
  unfold specPrivateOrLocalHost
  infer_instance

/-! ### Helper lemmas -/

/-- `trimChars` is `dropWhile` from the left then `rdropWhile` from the
right. -/
theorem trimChars_eq_rdropWhile (l : List Char) :
    trimChars l = (l.dropWhile jsWS).rdropWhile jsWS := by
  simp [trimChars, List.rdropWhile]

/-- Trimming is idempotent. -/
theorem trimChars_idem (l : List Char) : trimChars (trimChars l) = trimChars l := by
  rw [trimChars_eq_rdropWhile, trimChars_eq_rdropWhile]
  set m := l.dropWhile jsWS with hm
  have hdrop : (m.rdropWhile jsWS).dropWhile jsWS = m.rdropWhile jsWS := by
    rw [List.dropWhile_eq_self_iff]
    intro hl
    have hpre : m.rdropWhile jsWS <+: m := List.rdropWhile_prefix jsWS m
    have hlen : 0 < m.length := lt_of_lt_of_le hl hpre.length_le
    have hgeteq : (m.rdropWhile jsWS)[0] = m[0] := List.IsPrefix.getElem hpre hl
    have hm' : m.dropWhile jsWS = m := by
      rw [hm]
      exact List.dropWhile_idempotent jsWS l
    have := List.dropWhile_eq_self_iff.mp hm' hlen
    simpa [List.get_eq_getElem, hgeteq] using this
  rw [hdrop]
  exact List.rdropWhile_idempotent jsWS m

/-- `strTrim` is idempotent. -/
theorem strTrim_idem (s : String) : strTrim (strTrim s) = strTrim s := by
  simp [strTrim, trimChars_idem]

/-- `spanP` splits its input into its two components. -/
theorem spanP_parts (p : Char → Bool) : ∀ l, (spanP p l).1 ++ (spanP p l).2 = l := by
  intro l
  induction l with
  | nil => rfl
  | cons c cs ih =>
    simp only [spanP]
    by_cases h : p c = true
    · simp only [h, if_true, List.cons_append]
      rw [ih]
    · simp [h]

/-- Everything in the first component of `spanP` satisfies the predicate. -/
theorem spanP_fst_all (p : Char → Bool) : ∀ l x, x ∈ (spanP p l).1 → p x = true := by
  intro l
  induction l with
  | nil => intro x hx; simp [spanP] at hx
  | cons c cs ih =>
    intro x hx
    simp only [spanP] at hx
    by_cases h : p c = true
    · simp only [h, if_true] at hx
      rcases List.mem_cons.mp hx with rfl | hx'
      · exact h
      · exact ih x hx'
    · simp [h] at hx

/-- The second component of `spanP` starts (when nonempty) with a
character failing the predicate. -/
theorem spanP_snd_head (p : Char → Bool) :
    ∀ l c cs, (spanP p l).2 = c :: cs → p c = false := by
  intro l
  induction l with
  | nil => intro c cs h; simp [spanP] at h
  | cons a as ih =>
    intro c cs h
    simp only [spanP] at h
    by_cases ha : p a = true
    · simp only [ha, if_true] at h
      exact ih c cs h
    · simp only [ha, if_false, Bool.false_eq_true] at h
      obtain ⟨rfl, -⟩ := List.cons.inj h
      simpa using ha

/-- `spanP` recovers an all-satisfying leading segment followed by a
remainder that is empty or starts with a failing character. -/
theorem spanP_append (p : Char → Bool) (a b : List Char)
    (ha : ∀ x ∈ a, p x = true)
    (hb : ∀ c cs, b = c :: cs → p c = false) :
    spanP p (a ++ b) = (a, b) := by
  induction a with
  | nil =>
    cases b with
    | nil => rfl
    | cons c cs =>
      simp only [List.nil_append, spanP, hb c cs rfl, if_false, Bool.false_eq_true]
  | cons x a' ih =>
    have hx : p x = true := ha x (List.mem_cons_self _ _)
    simp only [List.cons_append, spanP, hx, if_true, List.append_eq]
    rw [ih (fun y hy => ha y (List.mem_cons_of_mem _ hy))]

/-- `splitSegs` never returns an empty list of segments. -/
theorem splitSegs_ne_nil : ∀ l, splitSegs l ≠ [] := by
  intro l
  induction l with
  | nil => simp [splitSegs]
  | cons c cs ih =>
    simp only [splitSegs]
    by_cases h : (c == '&') = true
    · simp [h]
    · simp only [h, if_false, Bool.false_eq_true]
      cases hs : splitSegs cs with
      | nil => exact absurd hs ih
      | cons s rest => simp

/-- Splitting an `&`-free list yields the single segment. -/
theorem splitSegs_no_amp : ∀ l, '&' ∉ l → splitSegs l = [l] := by
  intro l
  induction l with
  | nil => intro _; rfl
  | cons c cs ih =>
    intro h
    have hc : (c == '&') = false := by
      simp only [beq_eq_false_iff_ne, ne_eq]
      intro hcc
      exact h (hcc ▸ List.mem_cons_self _ _)
    simp only [splitSegs, hc, if_false, Bool.false_eq_true]
    rw [ih (fun hm => h (List.mem_cons_of_mem _ hm))]

/-- Splitting at an explicit separator after an `&`-free segment. -/
theorem splitSegs_append : ∀ (a rest : List Char), '&' ∉ a →
    splitSegs (a ++ '&' :: rest) = a :: splitSegs rest := by
  intro a
  induction a with
  | nil =>
    intro rest _
    simp [splitSegs]
  | cons c a' ih =>
    intro rest h
    have hc : (c == '&') = false := by
      simp only [beq_eq_false_iff_ne, ne_eq]
      intro hcc
      exact h (hcc ▸ List.mem_cons_self _ _)
    simp only [List.cons_append, splitSegs, hc, if_false, Bool.false_eq_true, List.append_eq]
    rw [ih rest (fun hm => h (List.mem_cons_of_mem _ hm))]

/-- Segments produced by `splitSegs` contain no `&`. -/
theorem splitSegs_mem_no_amp : ∀ l seg, seg ∈ splitSegs l → '&' ∉ seg := by
  intro l
  induction l with
  | nil =>
    intro seg hseg
    simp [splitSegs] at hseg
    simp [hseg]
  | cons c cs ih =>
    intro seg hseg
    simp only [splitSegs] at hseg
    by_cases hc : (c == '&') = true
    · simp only [hc, if_true] at hseg
      rcases List.mem_cons.mp hseg with rfl | h'
      · simp
      · exact ih seg h'
    · simp only [hc, if_false, Bool.false_eq_true] at hseg
      cases hs : splitSegs cs with
      | nil => exact absurd hs (splitSegs_ne_nil cs)
      | cons s rest =>
        rw [hs] at hseg
        rcases List.mem_cons.mp hseg with rfl | h'
        · intro hmem
          rcases List.mem_cons.mp hmem with heq | hmem'
          · exact absurd heq.symm (by simpa using hc)
          · exact ih s (hs ▸ List.mem_cons_self _ _) hmem'
        · exact ih seg (hs ▸ List.mem_cons_of_mem _ h')

/-- Parsing a serialized `key=value` segment recovers the pair. -/
theorem parseSeg_append (k v : List Char) (hk : '=' ∉ k) :
    parseSeg (k ++ '=' :: v) = (k, v) := by
  unfold parseSeg
  rw [spanP_append (fun c => c != '=') k ('=' :: v)
    (fun x hx => by
      simp only [bne_iff_ne, ne_eq, decide_eq_true_eq]
      intro he
      exact hk (he ▸ hx))
    (fun c cs hc => by
      obtain ⟨rfl, -⟩ := List.cons.inj hc.symm
      decide)]

/-- The components of a parsed segment are made of the segment's
characters, and the key holds no `=`. -/
theorem parseSeg_wf (seg : List Char) (hamp : '&' ∉ seg) :
    '&' ∉ (parseSeg seg).1 ∧ '=' ∉ (parseSeg seg).1 ∧ '&' ∉ (parseSeg seg).2 := by
  have hparts := spanP_parts (fun c => c != '=') seg
  have hall := spanP_fst_all (fun c => c != '=') seg
  have hmem1 : ∀ x ∈ (spanP (fun c => c != '=') seg).1, x ∈ seg := by
    intro x hx
    rw [← hparts]
    exact List.mem_append_left _ hx
  have hmem2 : ∀ x ∈ (spanP (fun c => c != '=') seg).2, x ∈ seg := by
    intro x hx
    rw [← hparts]
    exact List.mem_append_right _ hx
  unfold parseSeg
  cases hsp : spanP (fun c => c != '=') seg with
  | mk k rest =>
    cases rest with
    | nil =>
      refine ⟨fun hm => hamp (hmem1 '&' (by rw [hsp]; exact hm)), ?_, by simp⟩
      intro hm
      have := hall '=' (by rw [hsp]; exact hm)
      simp at this
    | cons e v =>
      refine ⟨fun hm => hamp (hmem1 '&' (by rw [hsp]; exact hm)), ?_, ?_⟩
      · intro hm
        have := hall '=' (by rw [hsp]; exact hm)
        simp at this
      · intro hm
        exact hamp (hmem2 '&' (by rw [hsp]; exact List.mem_cons_of_mem _ hm))

/-- Every pair list produced by the query parser is well-formed. -/
theorem parseQueryList_wf (l : List Char) : QueryWF (parseQueryList l) := by
  intro kv hkv
  unfold parseQueryList at hkv
  rw [List.mem_filterMap] at hkv
  obtain ⟨seg, hseg, hif⟩ := hkv
  by_cases hempty : seg.isEmpty = true
  · rw [if_pos hempty] at hif
    cases hif
  · rw [if_neg hempty] at hif
    obtain rfl := Option.some.inj hif
    exact parseSeg_wf seg (splitSegs_mem_no_amp l seg hseg)

/-- A serialized segment of a well-formed pair is `&`-free. -/
theorem seg_no_amp (k v : List Char) (hk : '&' ∉ k) (hv : '&' ∉ v) :
    '&' ∉ (k ++ '=' :: v) := by
  intro hmem
  rcases List.mem_append.mp hmem with h | h
  · exact hk h
  · rcases List.mem_cons.mp h with heq | h'
    · cases heq
    · exact hv h'

/-- Parsing the serialization of a well-formed query pair list recovers
the list: the round-trip at the heart of `toString`-stability. -/
theorem serializeQuery_roundtrip : ∀ ps, QueryWF ps →
    parseQueryList (serializeQueryChars ps) = ps := by
  intro ps
  induction ps with
  | nil => intro _; rfl
  | cons kv ps' ih =>
    intro hwf
    obtain ⟨k, v⟩ := kv
    have hkv := hwf (k, v) (List.mem_cons_self _ _)
    have hseg : '&' ∉ (k ++ '=' :: v) := seg_no_amp k v hkv.1 hkv.2.2
    have hne : (k ++ '=' :: v) ≠ [] := by
      cases k <;> simp
    have hie : (k ++ '=' :: v).isEmpty = false := by cases k <;> rfl
    cases ps' with
    | nil =>
      show parseQueryList (joinAmp [k ++ '=' :: v]) = [(k, v)]
      unfold joinAmp parseQueryList
      rw [splitSegs_no_amp _ hseg]
      simp [hie, parseSeg_append k v hkv.2.1]
    | cons kv2 ps'' =>
      have hwf' : QueryWF (kv2 :: ps'') :=
        fun x hx => hwf x (List.mem_cons_of_mem _ hx)
      show parseQueryList
          ((k ++ '=' :: v) ++ '&' :: joinAmp ((kv2 :: ps'').map fun p => p.1 ++ '=' :: p.2))
          = (k, v) :: kv2 :: ps''
      unfold parseQueryList
      rw [splitSegs_append _ _ hseg]
      rw [List.filterMap_cons]
      simp only [hie, Bool.false_eq_true, if_false, parseSeg_append k v hkv.2.1]
      exact congrArg (List.cons (k, v)) (ih hwf')

/-- The first component of `waitLoop` is true exactly when none of the
`remaining + 1` successive polls reports cancellation. -/
theorem waitLoop_fst_iff (isC : Nat → Bool) :
    ∀ r k, (waitLoop isC r k).1 = true ↔ ∀ j, j ≤ r → isC (k + j) = false := by
  intro r
  induction r with
  | zero =>
    intro k
    simp only [waitLoop, Bool.not_eq_true']
    constructor
    · intro h j hj
      interval_cases j
      simpa using h
    · intro h
      simpa using h 0 (le_refl 0)
  | succ r ih =>
    intro k
    simp only [waitLoop]
    by_cases h : isC k = true
    · simp only [h, if_true]
      constructor
      · intro hfalse
        exact absurd hfalse (by simp)
      · intro hall
        have := hall 0 (Nat.zero_le _)
        simp [h] at this
    · simp only [h, if_false, Bool.false_eq_true]
      rw [ih (k + 1)]
      constructor
      · intro hall j hj
        match j with
        | 0 => simpa using (by simpa using h)
        | j' + 1 =>
          have := hall j' (by omega)
          simpa [Nat.add_comm, Nat.add_assoc, Nat.add_left_comm] using this
      · intro hall j hj
        have := hall (j + 1) (by omega)
        simpa [Nat.add_comm, Nat.add_assoc, Nat.add_left_comm] using this

/-- Unfolding equation for the successor case of `waitLoop`. -/
theorem waitLoop_succ (isC : Nat → Bool) (r k : Nat) :
    waitLoop isC (r + 1) k =
      if isC k then (false, [])
      else ((waitLoop isC r (k + 1)).1, (r + 1) :: (waitLoop isC r (k + 1)).2) := by
  simp [waitLoop]

/-- Each recorded tick of `waitLoop` carries the remaining whole seconds,
and its poll reported "not cancelled". -/
theorem waitLoop_ticks (isC : Nat → Bool) :
    ∀ r k i v, (waitLoop isC r k).2.get? i = some v →
      v = r - i ∧ isC (k + i) = false := by
  intro r
  induction r with
  | zero =>
    intro k i v hv
    simp [waitLoop] at hv
  | succ r ih =>
    intro k i v hv
    rw [waitLoop_succ] at hv
    by_cases hc : isC k = true
    · rw [if_pos hc] at hv
      simp at hv
    · rw [if_neg hc] at hv
      cases i with
      | zero =>
        simp only [List.get?, Option.some.injEq] at hv
        refine ⟨by omega, ?_⟩
        simpa using hc
      | succ i' =>
        simp only [List.get?] at hv
        obtain ⟨h1, h2⟩ := ih (k + 1) i' v hv
        refine ⟨by omega, ?_⟩
        have hk : k + (i' + 1) = (k + 1) + i' := by omega
        rw [hk]
        exact h2

/-- `waitLoop` emits at most `remaining` ticks. -/
theorem waitLoop_ticks_len_le (isC : Nat → Bool) :
    ∀ r k, (waitLoop isC r k).2.length ≤ r := by
  intro r
  induction r with
  | zero => intro k; simp [waitLoop]
  | succ r ih =>
    intro k
    by_cases hc : isC k = true
    · simp [waitLoop, hc]
    · simp only [waitLoop, hc, if_false, Bool.false_eq_true]
      simpa using Nat.succ_le_succ (ih (k + 1))

/-- Without cancellation, `waitLoop` emits exactly `remaining` ticks. -/
theorem waitLoop_ticks_len_eq (isC : Nat → Bool) (hno : ∀ j, isC j = false) :
    ∀ r k, (waitLoop isC r k).2.length = r := by
  intro r
  induction r with
  | zero => intro k; simp [waitLoop]
  | succ r ih =>
    intro k
    simp only [waitLoop, hno k, if_false, Bool.false_eq_true]
    simpa using ih (k + 1)

/-- Resolving the spec-side disjunction for a host that fails the
emptiness, equality/dot-pattern and IPv4-block tests: only the colon
clause can remain. -/
theorem specPrivate_colon_resolve (host : String)
    (h1 : ¬host = "")
    (h2 : ¬(host = "localhost" ∨ host = "0.0.0.0" ∨ host = "::" ∨ host = "::1"
        ∨ strEndsWith host ".localhost" = true ∨ strEndsWith host ".local" = true
        ∨ strEndsWith host ".internal" = true))
    (h3 : ¬(strStartsWith host "127." = true ∨ strStartsWith host "10." = true
        ∨ strStartsWith host "192.168." = true ∨ strStartsWith host "169.254." = true
        ∨ rfc1918Blocks172.any (fun p => strStartsWith host p) = true))
    (hd : host = "" ∨ host = "localhost" ∨ host = "0.0.0.0" ∨ host = "::" ∨ host = "::1"
        ∨ strEndsWith host ".localhost" = true ∨ strEndsWith host ".local" = true
        ∨ strEndsWith host ".internal" = true
        ∨ strStartsWith host "127." = true ∨ strStartsWith host "10." = true
        ∨ strStartsWith host "192.168." = true ∨ strStartsWith host "169.254." = true
        ∨ rfc1918Blocks172.any (fun p => strStartsWith host p) = true
        ∨ (strContainsChar host ':' = true
            ∧ (strStartsWith host "fe80:" = true ∨ strStartsWith host "fc" = true
                ∨ strStartsWith host "fd" = true))) :
    strContainsChar host ':' = true
      ∧ (strStartsWith host "fe80:" = true ∨ strStartsWith host "fc" = true
          ∨ strStartsWith host "fd" = true) := by
  rcases hd with a|a|a|a|a|a|a|a|a|a|a|a|a|hcol
  · exact absurd a h1
  · exact absurd (Or.inl a) h2
  · exact absurd (Or.inr (Or.inl a)) h2
  · exact absurd (Or.inr (Or.inr (Or.inl a))) h2
  · exact absurd (Or.inr (Or.inr (Or.inr (Or.inl a)))) h2
  · exact absurd (Or.inr (Or.inr (Or.inr (Or.inr (Or.inl a))))) h2
  · exact absurd (Or.inr (Or.inr (Or.inr (Or.inr (Or.inr (Or.inl a)))))) h2
  · exact absurd (Or.inr (Or.inr (Or.inr (Or.inr (Or.inr (Or.inr a)))))) h2
  · exact absurd (Or.inl a) h3
  · exact absurd (Or.inr (Or.inl a)) h3
  · exact absurd (Or.inr (Or.inr (Or.inl a))) h3
  · exact absurd (Or.inr (Or.inr (Or.inr (Or.inl a)))) h3
  · exact absurd (Or.inr (Or.inr (Or.inr (Or.inr a)))) h3
  · exact hcol

/-- A URL passing `isPublicHttpUrl` parses, has an `http`/`https` scheme,
and a hostname the classifier does not reject. -/
theorem isPublicHttpUrl_spec (url : String) (h : isPublicHttpUrl url = true) :
    ∃ p, parseURL url = some p
      ∧ (protocol p = "http:" ∨ protocol p = "https:")
      ∧ isPrivateOrLocalHost (hostname p) = false := by
  unfold isPublicHttpUrl at h
  cases hp : parseURL url with
  | none => rw [hp] at h; simp at h
  | some p =>
    rw [hp] at h
    simp only [] at h
    refine ⟨p, rfl, ?_, ?_⟩
    · by_cases hs : protocol p ≠ "http:" ∧ protocol p ≠ "https:"
      · rw [if_pos hs] at h; simp at h
      · push_neg at hs
        by_cases h1 : protocol p = "http:"
        · exact Or.inl h1
        · exact Or.inr (hs h1)
    · by_cases hs : protocol p ≠ "http:" ∧ protocol p ≠ "https:"
      · rw [if_pos hs] at h; simp at h
      · rw [if_neg hs] at h
        simpa using h

/-- Inversion for a successful deep-link parse: the outer link parsed, a
`url` parameter was present, and the returned request carries the
normalized, safety-checked target plus the derived enqueue options. -/
theorem parseExternalDeepLink_some_inv (isSafe : String → Bool) (raw : String)
    (req : ExternalLinkRequest) (h : parseExternalDeepLink isSafe raw = some req) :
    ∃ parsed urlParam,
      parseURL raw = some parsed
      ∧ getParam parsed "url" = some urlParam
      ∧ req.url = normalizeExternalVideoUrl (strTrim urlParam)
      ∧ isPublicHttpUrl req.url = true
      ∧ req.enqueueOptions = parseEnqueueOptions parsed := by
  simp only [parseExternalDeepLink] at h
  by_cases h0 : raw = "" ∨ strLength raw > MAX_EXTERNAL_DEEPLINK_LENGTH
  · rw [if_pos h0] at h
    exact absurd h (by simp)
  · rw [if_neg h0] at h
    cases hp : parseURL raw with
    | none =>
      rw [hp] at h
      exact absurd h (by simp)
    | some parsed =>
      rw [hp] at h
      simp only [] at h
      by_cases h1 : protocol parsed ≠ "youwee:" ∨ hostname parsed ≠ "download"
      · rw [if_pos h1] at h
        exact absurd h (by simp)
      · rw [if_neg h1] at h
        by_cases h2 : getParam parsed "v" ≠ some "1"
        · rw [if_pos h2] at h
          exact absurd h (by simp)
        · rw [if_neg h2] at h
          cases hu : getParam parsed "url" with
          | none =>
            rw [hu] at h
            exact absurd h (by simp)
          | some u0 =>
            rw [hu] at h
            simp only [Option.map_some'] at h
            by_cases h3 : strTrim u0 = "" ∨ ¬ isSafe (strTrim u0)
            · rw [if_pos h3] at h
              exact absurd h (by simp)
            · rw [if_neg h3] at h
              by_cases h4 : ¬ isSafe (normalizeExternalVideoUrl (strTrim u0))
                  ∨ ¬ isPublicHttpUrl (normalizeExternalVideoUrl (strTrim u0))
              · rw [if_pos h4] at h
                exact absurd h (by simp)
              · rw [if_neg h4] at h
                push_neg at h4
                have hreq := Option.some.inj h
                subst hreq
                exact ⟨parsed, u0, rfl, hu, rfl, h4.2, rfl⟩

/-- Facts about the host component extracted by `spanP`. -/
theorem host_ok_of_span (rest2 host rest3 : List Char)
    (hsp : spanP (fun c => c != '/' && c != '?') rest2 = (host, rest3)) :
    ∀ c ∈ host, c ≠ '/' ∧ c ≠ '?' := by
  intro c hc
  have := spanP_fst_all (fun c => c != '/' && c != '?') rest2 c (by rw [hsp]; exact hc)
  simp only [Bool.and_eq_true, bne_iff_ne, ne_eq] at this
  exact this

/-- Every record produced by the URL parser is well-formed. -/
theorem parseURLChars_wf : ∀ cs u, parseURLChars cs = some u → URLWF u := by
  intro cs u h
  unfold parseURLChars at h
  split at h
  case _ schemeRaw rest2 heq =>
    by_cases hv : validScheme schemeRaw = true
    · rw [if_pos hv] at h
      unfold parseAfterScheme at h
      rcases hsp2 : spanP (fun c => c != '/' && c != '?') rest2 with ⟨host, rest3⟩
      rw [hsp2] at h
      split at h
      · rename_i hpair
        injection hpair with h1 h2
        subst h1
        subst h2
        obtain rfl := Option.some.inj h
        refine ⟨hv, ?_, Or.inl rfl, ?_, ?_⟩
        · exact host_ok_of_span rest2 _ _ (by rw [hsp2])
        · intro c hc
          simp at hc
        · intro kv hkv
          simp at hkv
      · rename_i hpair
        injection hpair with h1 h2
        subst h1
        subst h2
        obtain rfl := Option.some.inj h
        refine ⟨hv, ?_, Or.inl rfl, ?_, ?_⟩
        · exact host_ok_of_span rest2 _ _ (by rw [hsp2])
        · intro c hc
          simp at hc
        · exact parseQueryList_wf _
      · rename_i hnil hq hpair
        injection hpair with h1 h2
        subst h1
        subst h2
        obtain ⟨c0, cs0, rfl⟩ : ∃ c0 cs0, rest3 = c0 :: cs0 := by
          cases hr : rest3 with
          | nil => exact absurd hr hnil
          | cons a b => exact ⟨a, b, rfl⟩
        have hc0 : (c0 != '/' && c0 != '?') = false :=
          spanP_snd_head _ rest2 c0 cs0 (by rw [hsp2])
        have hc0' : c0 = '/' := by
          by_cases hcq : c0 = '?'
          · exact absurd (by rw [hcq]) (hq cs0)
          · have h1 : (c0 != '?') = true := by simpa [bne_iff_ne] using hcq
            rw [h1, Bool.and_true] at hc0
            simpa [bne_iff_ne] using hc0
        subst hc0'
        unfold parsePathAndQuery at h
        rcases hsp3 : spanP (fun c => c != '?') ('/' :: cs0) with ⟨path, rest4⟩
        have hsp3u : spanP (fun c => c != '?') ('/' :: cs0)
            = ('/' :: (spanP (fun c => c != '?') cs0).1,
                (spanP (fun c => c != '?') cs0).2) := by
          simp [spanP]
        have hsp3' : ('/' :: (spanP (fun c => c != '?') cs0).1,
            (spanP (fun c => c != '?') cs0).2) = (path, rest4) :=
          hsp3u.symm.trans hsp3
        have hpath : path = '/' :: (spanP (fun c => c != '?') cs0).1 := by
          injection hsp3' with h1 h2
          exact h1.symm
        have hpathok : ∀ c ∈ path, c ≠ '?' := by
          intro c hc
          have := spanP_fst_all (fun c => c != '?') ('/' :: cs0) c (by rw [hsp3]; exact hc)
          simpa [bne_iff_ne] using this
        rw [hsp3] at h
        split at h
        · rename_i hpair2
          injection hpair2 with h1 h2
          subst h1
          subst h2
          obtain rfl := Option.some.inj h
          refine ⟨hv, ?_, Or.inr ⟨_, hpath⟩, hpathok, ?_⟩
          · exact host_ok_of_span rest2 _ _ (by rw [hsp2])
          · intro kv hkv
            simp at hkv
        · rename_i hpair2
          injection hpair2 with h1 h2
          subst h1
          subst h2
          obtain rfl := Option.some.inj h
          refine ⟨hv, ?_, Or.inr ⟨_, hpath⟩, hpathok, ?_⟩
          · exact host_ok_of_span rest2 _ _ (by rw [hsp2])
          · exact parseQueryList_wf _
    · rw [if_neg hv] at h
      cases h
  case _ => cases h

/-- Characters of a valid scheme are not `:`. -/
theorem validScheme_no_colon (l : List Char) (h : validScheme l = true) :
    ∀ x ∈ l, (x != ':') = true := by
  cases l with
  | nil => intro x hx; simp at hx
  | cons c cs =>
    simp only [validScheme, Bool.and_eq_true] at h
    intro x hx
    simp only [bne_iff_ne, ne_eq]
    intro hcol
    rcases List.mem_cons.mp hx with rfl | hx'
    · rw [hcol] at h
      exact absurd h.1 (by decide)
    · have hsc := List.all_eq_true.mp h.2 x hx'
      rw [hcol] at hsc
      exact absurd hsc (by decide)

/-- The serialization of a well-formed record parses back to the record:
the WHATWG round-trip invariant, for the modelled fragment. -/
theorem parse_serializeURL (u : URLRec) (hwf : URLWF u) :
    parseURLChars (serializeURL u) = some u := by
  obtain ⟨scheme, host, path, query⟩ := u
  obtain ⟨hv, hhost, hpshape, hpok, hq⟩ := hwf
  dsimp only at hv hhost hpshape hpok hq
  have hs1 : spanP (fun c => c != ':')
      (scheme ++ ':' :: '/' :: '/' :: (host ++ path ++ queryPartChars query))
      = (scheme, ':' :: '/' :: '/' :: (host ++ path ++ queryPartChars query)) := by
    apply spanP_append
    · exact validScheme_no_colon scheme hv
    · intro c cs hcc
      obtain ⟨rfl, -⟩ := List.cons.inj hcc.symm
      decide
  show parseURLChars (scheme ++ ':' :: '/' :: '/' :: (host ++ path ++ queryPartChars query))
      = some ⟨scheme, host, path, query⟩
  unfold parseURLChars
  rw [hs1]
  simp only []
  rw [if_pos hv]
  unfold parseAfterScheme
  have hhost' : ∀ x ∈ host, ((fun c => c != '/' && c != '?') x) = true := by
    intro x hx
    simp only [Bool.and_eq_true, bne_iff_ne, ne_eq]
    exact hhost x hx
  rcases hpshape with hpnil | ⟨pr, hpcons⟩
  · subst hpnil
    cases hqc : query with
    | nil =>
      subst hqc
      have h2 : host ++ [] ++ queryPartChars ([] : List (List Char × List Char))
          = host ++ [] := by
        simp [queryPartChars]
      rw [h2, spanP_append (fun c => c != '/' && c != '?') host [] hhost'
        (by intro c cs h; cases h)]
    | cons q1 qs' =>
      subst hqc
      have h2 : host ++ [] ++ queryPartChars (q1 :: qs')
          = host ++ ('?' :: serializeQueryChars (q1 :: qs')) := by
        simp [queryPartChars]
      rw [h2, spanP_append (fun c => c != '/' && c != '?') host
        ('?' :: serializeQueryChars (q1 :: qs')) hhost'
        (by intro c cs h; obtain ⟨rfl, -⟩ := List.cons.inj h.symm; decide)]
      show some (⟨scheme, host, [], parseQueryList (serializeQueryChars (q1 :: qs'))⟩ : URLRec)
          = some ⟨scheme, host, [], q1 :: qs'⟩
      rw [serializeQuery_roundtrip (q1 :: qs') hq]
  · subst hpcons
    have hassoc : host ++ ('/' :: pr) ++ queryPartChars query
        = host ++ ('/' :: (pr ++ queryPartChars query)) := by
      simp
    rw [hassoc]
    rw [spanP_append (fun c => c != '/' && c != '?') host
      ('/' :: (pr ++ queryPartChars query)) hhost'
      (by intro c cs h; obtain ⟨rfl, -⟩ := List.cons.inj h.symm; decide)]
    show parsePathAndQuery scheme host ('/' :: (pr ++ queryPartChars query))
        = some ⟨scheme, host, '/' :: pr, query⟩
    unfold parsePathAndQuery
    have hback : '/' :: (pr ++ queryPartChars query)
        = ('/' :: pr) ++ queryPartChars query := by
      simp
    rw [hback]
    have hpok' : ∀ x ∈ ('/' :: pr), ((fun c => c != '?') x) = true := by
      intro x hx
      simp only [bne_iff_ne, ne_eq]
      exact hpok x hx
    cases hqc : query with
    | nil =>
      subst hqc
      have h3 : ('/' :: pr) ++ queryPartChars ([] : List (List Char × List Char))
          = ('/' :: pr) ++ [] := by
        simp [queryPartChars]
      rw [h3, spanP_append (fun c => c != '?') ('/' :: pr) [] hpok'
        (by intro c cs h; cases h)]
    | cons q1 qs' =>
      subst hqc
      have h3 : ('/' :: pr) ++ queryPartChars (q1 :: qs')
          = ('/' :: pr) ++ ('?' :: serializeQueryChars (q1 :: qs')) := by
        simp [queryPartChars]
      rw [h3, spanP_append (fun c => c != '?') ('/' :: pr)
        ('?' :: serializeQueryChars (q1 :: qs')) hpok'
        (by intro c cs h; obtain ⟨rfl, -⟩ := List.cons.inj h.symm; decide)]
      show some (⟨scheme, host, '/' :: pr, parseQueryList (serializeQueryChars (q1 :: qs'))⟩ : URLRec)
          = some ⟨scheme, host, '/' :: pr, q1 :: qs'⟩
      rw [serializeQuery_roundtrip (q1 :: qs') hq]

/-- Deleting a query parameter preserves record well-formedness. -/
theorem URLWF_deleteParam (u : URLRec) (k : String) (h : URLWF u) :
    URLWF (deleteParam u k) := by
  obtain ⟨hv, hh, hp, hpo, hq⟩ := h
  exact ⟨hv, hh, hp, hpo, fun kv hkv => hq kv (List.mem_filter.mp hkv).1⟩

/-- A two-key filter chain is stable under reapplication. -/
theorem filter_chain_stable {α : Type} (P Q : α → Bool) (l : List α) :
    List.filter Q (List.filter P (List.filter Q (List.filter P l)))
      = List.filter Q (List.filter P l) := by
  calc List.filter Q (List.filter P (List.filter Q (List.filter P l)))
      = List.filter (fun a => Q a && P a && Q a && P a) l := by
        rw [List.filter_filter, List.filter_filter, List.filter_filter]
    _ = List.filter (fun a => Q a && P a) l := by
        apply List.filter_congr
        intro a _
        cases hP : P a <;> cases hQ : Q a <;> simp [hP, hQ]
    _ = List.filter Q (List.filter P l) := (List.filter_filter _ _).symm

/-- Re-deleting the `list`/`index` parameters of an already-stripped
record is the identity. -/
theorem deleteParam_stable (u : URLRec) :
    deleteParam (deleteParam (deleteParam (deleteParam u "list") "index") "list") "index"
      = deleteParam (deleteParam u "list") "index" := by
  unfold deleteParam
  simp only []
  rw [filter_chain_stable]

/-- Deleting `list` and `index` keeps the `v` parameter present. -/
theorem hasParam_v_delete (u : URLRec) (h : hasParam u "v" = true) :
    hasParam (deleteParam (deleteParam u "list") "index") "v" = true := by
  unfold hasParam at h ⊢
  rw [List.find?_isSome] at h ⊢
  obtain ⟨kv, hmem, hkv⟩ := h
  refine ⟨kv, ?_, hkv⟩
  unfold deleteParam
  simp only []
  rw [List.mem_filter, List.mem_filter]
  have hk : kv.1 = "v".data := by simpa using hkv
  refine ⟨⟨hmem, ?_⟩, ?_⟩
  · rw [hk]
    decide
  · rw [hk]
    decide

/-- Idempotence of `normalizeExternalVideoUrl`, via the parse/serialize
round trip of the URL model. -/
theorem normalize_idem_main : ∀ url,
    normalizeExternalVideoUrl (normalizeExternalVideoUrl url) = normalizeExternalVideoUrl url := by
  intro url
  cases hp : parseURL url with
  | none =>
    have h1 : normalizeExternalVideoUrl url = url := by
      unfold normalizeExternalVideoUrl
      rw [hp]
    rw [h1]
    exact h1
  | some u =>
    have hwf : URLWF u := parseURLChars_wf url.data u hp
    have hpu : parseURL (urlToString u) = some u := parse_serializeURL u hwf
    unfold normalizeExternalVideoUrl
    rw [hp]
    simp only []
    by_cases hyt : isYouTubeHost (strToLower (hostname u)) = true
    · rw [if_pos hyt]
      by_cases hvid : (hasParam u "v" || strToLower (hostname u) = "youtu.be") = true
      · rw [if_pos hvid]
        have hwf' : URLWF (deleteParam (deleteParam u "list") "index") :=
          URLWF_deleteParam _ _ (URLWF_deleteParam _ _ hwf)
        have hpu' : parseURL (urlToString (deleteParam (deleteParam u "list") "index"))
            = some (deleteParam (deleteParam u "list") "index") :=
          parse_serializeURL _ hwf'
        rw [hpu']
        simp only []
        rw [if_pos (show isYouTubeHost (strToLower (hostname
          (deleteParam (deleteParam u "list") "index"))) = true from hyt)]
        have hvid' : (hasParam (deleteParam (deleteParam u "list") "index") "v"
            || strToLower (hostname (deleteParam (deleteParam u "list") "index"))
              = "youtu.be") = true := by
          rw [Bool.or_eq_true] at hvid ⊢
          rcases hvid with hP | hH
          · exact Or.inl (hasParam_v_delete u hP)
          · exact Or.inr hH
        rw [if_pos hvid']
        rw [deleteParam_stable u]
      · rw [if_neg hvid]
        rw [hpu]
        simp only []
        rw [if_pos hyt]
        rw [if_neg hvid]
    · rw [if_neg hyt]
      rw [hpu]
      simp only []
      rw [if_neg hyt]

/-! ### Claims -/

set_option maxHeartbeats 4000000 in
/-- C2: `isPrivateOrLocalHost h` is true exactly when, after lowercasing
and stripping surrounding brackets, `h` is empty; equals `localhost`,
`0.0.0.0`, `::` or `::1`; ends with `.localhost`, `.local` or `.internal`;
starts with one of the textual IPv4 blocks `127.`, `10.`, `192.168.`,
`169.254.` or `172.16.`–`172.31.`; or contains a colon and starts with
`fe80:`, `fc` or `fd`.  In particular it is true on the eight listed
private hostnames and false on the three listed public ones. -/
theorem claim_C2_host_classifier :
    (∀ h, isPrivateOrLocalHost h = true ↔ specPrivateOrLocalHost h)
    ∧ (isPrivateOrLocalHost "127.0.0.1" = true
        ∧ isPrivateOrLocalHost "10.0.0.1" = true
        ∧ isPrivateOrLocalHost "192.168.1.1" = true
        ∧ isPrivateOrLocalHost "169.254.1.1" = true
        ∧ isPrivateOrLocalHost "localhost" = true
        ∧ isPrivateOrLocalHost "foo.local" = true
        ∧ isPrivateOrLocalHost "::1" = true
        ∧ isPrivateOrLocalHost "fe80::1" = true)
    ∧ (isPrivateOrLocalHost "example.com" = false
        ∧ isPrivateOrLocalHost "8.8.8.8" = false
        ∧ isPrivateOrLocalHost "youtube.com" = false) := by
  refine ⟨?_, by decide, by decide⟩
  intro h
  simp only [isPrivateOrLocalHost, specPrivateOrLocalHost]
  split_ifs with h1 h2 h3 h4
  · exact iff_of_true rfl (Or.inl h1)
  · refine iff_of_true rfl ?_
    rcases h2 with a|a|a|a|a|a|a <;> simp [a]
  · refine iff_of_true rfl ?_
    rcases h3 with a|a|a|a|a <;> simp [a]
  · rw [Bool.or_eq_true, Bool.or_eq_true]
    constructor
    · intro hf
      rcases hf with (a|a)|a <;> simp [h4, a]
    · intro hd
      rcases (specPrivate_colon_resolve _ h1 h2 h3 hd).2 with b|b|b <;> simp [b]
  · refine iff_of_false (by simp) ?_
    intro hd
    exact absurd (specPrivate_colon_resolve _ h1 h2 h3 hd).1 h4

set_option maxHeartbeats 1000000 in
/-- C2 witness: the characterization applied at a concrete hostname. -/
theorem claim_C2_host_classifier_witness :
    isPrivateOrLocalHost "10.0.0.1" = true :=
  (claim_C2_host_classifier.1 "10.0.0.1").mpr (by decide)

/-- C4: for every matcher-list semantics and every message, a message
classified non-retryable is never classified retryable (non-retryable
precedence), and a blank or whitespace-only message is never retryable. -/
theorem claim_C4_retry_precedence :
    ∀ (nonRetryablePatterns retryablePatterns : List (String → Bool)) (message : String),
      (isNonRetryableError nonRetryablePatterns message = true →
        isRetryableError nonRetryablePatterns retryablePatterns message = false)
      ∧ (strTrim message = "" →
        isRetryableError nonRetryablePatterns retryablePatterns message = false) := by
  intro nrp rp msg
  constructor
  · intro h
    have hnr : isNonRetryableError nrp (strTrim msg) = true := by
      simp only [isNonRetryableError] at h ⊢
      rw [strTrim_idem]
      exact h
    simp only [isRetryableError]
    rw [if_pos (Or.inr hnr)]
  · intro h
    simp only [isRetryableError]
    rw [if_pos (Or.inl h)]

/-- C4 witness: precedence at a synthetic message matching both pattern
lists, and blankness at a whitespace-only message. -/
theorem claim_C4_retry_precedence_witness :
    isRetryableError [fun s => strStartsWith s "Private"]
        [fun s => strStartsWith s "Private"] "Private video timed out" = false
    ∧ isRetryableError [fun s => strStartsWith s "Private"]
        [fun s => strStartsWith s "Private"] "   " = false :=
  ⟨(claim_C4_retry_precedence [fun s => strStartsWith s "Private"]
      [fun s => strStartsWith s "Private"] "Private video timed out").1 (by decide),
   (claim_C4_retry_precedence [fun s => strStartsWith s "Private"]
      [fun s => strStartsWith s "Private"] "   ").2 (by decide)⟩

/-- C5: `waitWithCancellation` rounds the millisecond duration up to whole
seconds, returns true exactly when all `ceil(ms/1000)` pre-sleep polls and
the final poll report "not cancelled", records each tick with the
remaining whole seconds from a poll that reported "not cancelled", emits
at most (and, uncancelled, exactly) `ceil(ms/1000)` ticks; a 1ms wait
still waits one full second, and a 3000ms wait cancelled after the first
tick returns false having ticked once. -/
theorem claim_C5_cancellable_wait :
    ∀ (ms : Nat) (isCancelled : Nat → Bool),
      (ms ≤ 1000 * ((ms + 999) / 1000)
        ∧ (0 < ms → 1000 * ((ms + 999) / 1000) < ms + 1000))
      ∧ ((waitWithCancellation ms isCancelled).1 = true ↔
          ∀ k, k ≤ (ms + 999) / 1000 → isCancelled k = false)
      ∧ (∀ i v, (waitWithCancellation ms isCancelled).2.get? i = some v →
          v = (ms + 999) / 1000 - i ∧ isCancelled i = false)
      ∧ (waitWithCancellation ms isCancelled).2.length ≤ (ms + 999) / 1000
      ∧ ((∀ k, isCancelled k = false) →
          (waitWithCancellation ms isCancelled).2.length = (ms + 999) / 1000)
      ∧ waitWithCancellation 1 (fun _ => false) = (true, [1])
      ∧ waitWithCancellation 3000 (fun k => decide (1 ≤ k)) = (false, [3]) := by
  intro ms isC
  refine ⟨⟨by omega, by omega⟩, ?_, ?_, ?_, ?_, by decide, by decide⟩
  · simpa [waitWithCancellation] using
      waitLoop_fst_iff isC ((ms + 999) / 1000) 0
  · intro i v hv
    have := waitLoop_ticks isC ((ms + 999) / 1000) 0 i v
      (by simpa [waitWithCancellation] using hv)
    simpa using this
  · simpa [waitWithCancellation] using
      waitLoop_ticks_len_le isC ((ms + 999) / 1000) 0
  · intro hno
    simpa [waitWithCancellation] using
      waitLoop_ticks_len_eq isC hno ((ms + 999) / 1000) 0

/-- C5 witness: concrete uncancelled 2000ms wait. -/
theorem claim_C5_cancellable_wait_witness :
    (waitWithCancellation 2000 (fun _ => false)).2.length = 2
    ∧ (waitWithCancellation 2000 (fun _ => false)).1 = true :=
  ⟨by simpa using
      (claim_C5_cancellable_wait 2000 (fun _ => false)).2.2.2.2.1 (fun _ => rfl),
   ((claim_C5_cancellable_wait 2000 (fun _ => false)).2.1).mpr (fun _ _ => rfl)⟩

/-- C6: both clamp helpers substitute their default (3 attempts, 5
seconds) on falsy input (`0`, `NaN`, `undefined`), otherwise clamp into
`[1, 10]` / `[1, 60]`; the result is never below 1; and
`clampAutoRetryMaxAttempts 0 = 3`, `clampAutoRetryMaxAttempts 999 = 10`. -/
theorem claim_C6_clamped_config :
    ∀ v : JSNumber,
      (1 ≤ clampAutoRetryMaxAttempts v ∧ clampAutoRetryMaxAttempts v ≤ 10)
      ∧ (1 ≤ clampAutoRetryDelaySeconds v ∧ clampAutoRetryDelaySeconds v ≤ 60)
      ∧ (v.falsy = true →
          clampAutoRetryMaxAttempts v = 3 ∧ clampAutoRetryDelaySeconds v = 5)
      ∧ (∀ x : Int, v = .num x → x ≠ 0 →
          clampAutoRetryMaxAttempts v = max 1 (min 10 x)
          ∧ clampAutoRetryDelaySeconds v = max 1 (min 60 x)
          ∧ (1 ≤ x → x ≤ 10 → clampAutoRetryMaxAttempts v = x)
          ∧ (1 ≤ x → x ≤ 60 → clampAutoRetryDelaySeconds v = x))
      ∧ clampAutoRetryMaxAttempts (.num 0) = 3
      ∧ clampAutoRetryMaxAttempts (.num 999) = 10
      ∧ clampAutoRetryDelaySeconds (.num 0) = 5 := by
  intro v
  have hb10 : ∀ y : Int, 1 ≤ max 1 (min 10 y) ∧ max 1 (min 10 y) ≤ 10 := by
    intro y
    exact ⟨le_max_left _ _, max_le (by norm_num) (min_le_left _ _)⟩
  have hb60 : ∀ y : Int, 1 ≤ max 1 (min 60 y) ∧ max 1 (min 60 y) ≤ 60 := by
    intro y
    exact ⟨le_max_left _ _, max_le (by norm_num) (min_le_left _ _)⟩
  have hA : ∀ w, clampAutoRetryMaxAttempts w = max 1 (min 10 (jsOrDefault w 3)) := by
    intro w
    simp [clampAutoRetryMaxAttempts, AUTO_RETRY_LIMITS]
  have hD : ∀ w, clampAutoRetryDelaySeconds w = max 1 (min 60 (jsOrDefault w 5)) := by
    intro w
    simp [clampAutoRetryDelaySeconds, AUTO_RETRY_LIMITS]
  refine ⟨by rw [hA]; exact hb10 _, by rw [hD]; exact hb60 _, ?_, ?_, by decide, by decide, by decide⟩
  · intro hfalsy
    cases v with
    | nan => constructor <;> decide
    | undef => constructor <;> decide
    | num x =>
      have hx : x = 0 := by simpa [JSNumber.falsy] using hfalsy
      subst hx
      constructor <;> decide
  · intro x hvx hx0
    subst hvx
    have hjs : jsOrDefault (JSNumber.num x) 3 = x := by simp [jsOrDefault, hx0]
    have hjs' : jsOrDefault (JSNumber.num x) 5 = x := by simp [jsOrDefault, hx0]
    refine ⟨by rw [hA, hjs], by rw [hD, hjs'], ?_, ?_⟩
    · intro h1 h2
      rw [hA, hjs, min_eq_right h2, max_eq_right h1]
    · intro h1 h2
      rw [hD, hjs', min_eq_right h2, max_eq_right h1]

/-- C6 witness: the clamp applied to a non-falsy in-range value and to
`NaN`. -/
theorem claim_C6_clamped_config_witness :
    clampAutoRetryMaxAttempts (.num 7) = 7
    ∧ clampAutoRetryMaxAttempts .nan = 3 :=
  ⟨((claim_C6_clamped_config (.num 7)).2.2.2.1 7 rfl (by decide)).2.2.1
      (by decide) (by decide),
   ((claim_C6_clamped_config .nan).2.2.1 (by decide)).1⟩

/-- C10: `normalizeErrorMessage` returns string inputs verbatim (so its
output can be blank), and the `Unknown error` fallback plus the non-empty
guarantee apply only to non-string inputs; an object whose `message` is
blank or whitespace-only falls through to the generic string conversion. -/
theorem claim_C10_error_normalization :
    (∀ s, normalizeErrorMessage (.str s) = s)
    ∧ normalizeErrorMessage (.str "") = ""
    ∧ (∀ m toStr, strTrim m = "" →
        normalizeErrorMessage (.obj (some (.strMsg m)) toStr)
          = stringConversionFallback toStr)
    ∧ (∀ e : ErrValue, (∀ s, e ≠ .str s) → normalizeErrorMessage e ≠ "") := by
  refine ⟨fun s => rfl, rfl, ?_, ?_⟩
  · intro m toStr h
    simp [normalizeErrorMessage, h]
  · intro e he
    have hfb : ∀ t, stringConversionFallback t ≠ "" := by
      intro t
      cases t with
      | none => decide
      | some raw =>
        by_cases hr : raw = ""
        · simp [stringConversionFallback, hr]
        · simp [stringConversionFallback, hr]
    cases e with
    | str s => exact absurd rfl (he s)
    | obj message toStr =>
      cases message with
      | none => exact hfb toStr
      | some f =>
        cases f with
        | nonStrMsg => exact hfb toStr
        | strMsg m =>
          by_cases hm : strTrim m = ""
          · simpa [normalizeErrorMessage, hm] using hfb toStr
          · have hmne : m ≠ "" := by
              intro hme
              rw [hme] at hm
              exact hm rfl
            simpa [normalizeErrorMessage, hm] using hmne
    | other toStr => exact hfb toStr

/-- C10 witness: a whitespace-only `message` field falls through, and a
non-string value yields a non-empty message. -/
theorem claim_C10_error_normalization_witness :
    normalizeErrorMessage (.obj (some (.strMsg "  ")) (some "boom"))
      = stringConversionFallback (some "boom")
    ∧ normalizeErrorMessage (.other none) ≠ "" :=
  ⟨claim_C10_error_normalization.2.2.1 "  " (some "boom") (by decide),
   claim_C10_error_normalization.2.2.2 (.other none)
     (fun s h => ErrValue.noConfusion h)⟩

/-- C7: `resolveExternalRouteTarget` honors an explicit `youtube` or
`universal` preference verbatim; for `auto` it resolves to `youtube`
exactly when the url parses with a recognized video-platform host, and to
`universal` in every other case (unparseable urls included); the result is
always fully resolved. -/
theorem claim_C7_route_resolution :
    ∀ url,
      resolveExternalRouteTarget .youtube url = .youtube
      ∧ resolveExternalRouteTarget .universal url = .universal
      ∧ (resolveExternalRouteTarget .auto url = .youtube ↔
          ∃ p, parseURL url = some p ∧ isYouTubeHost (strToLower (hostname p)) = true)
      ∧ (parseURL url = none → resolveExternalRouteTarget .auto url = .universal)
      ∧ (∀ preferredTarget, resolveExternalRouteTarget preferredTarget url = .youtube
          ∨ resolveExternalRouteTarget preferredTarget url = .universal) := by
  intro url
  refine ⟨rfl, rfl, ?_, ?_, ?_⟩
  · have hb : resolveExternalRouteTarget .auto url = .youtube ↔ isYouTubeUrl url = true := by
      by_cases hyt : isYouTubeUrl url = true
      · simp [resolveExternalRouteTarget, hyt]
      · simp [resolveExternalRouteTarget, hyt]
    have h2 : isYouTubeUrl url = true ↔
        ∃ p, parseURL url = some p ∧ isYouTubeHost (strToLower (hostname p)) = true := by
      unfold isYouTubeUrl
      cases parseURL url with
      | none => simp
      | some p => simp
    exact hb.trans h2
  · intro hp
    simp [resolveExternalRouteTarget, isYouTubeUrl, hp]
  · intro pref
    cases pref with
    | youtube => exact Or.inl rfl
    | universal => exact Or.inr rfl
    | auto =>
      by_cases hyt : isYouTubeUrl url = true
      · exact Or.inl (by simp [resolveExternalRouteTarget, hyt])
      · exact Or.inr (by simp [resolveExternalRouteTarget, hyt])

/-- C7 witness: the route for an unparseable url under `auto`, and a
verbatim explicit preference. -/
theorem claim_C7_route_resolution_witness :
    resolveExternalRouteTarget .auto "notaurl" = .universal
    ∧ resolveExternalRouteTarget .youtube "notaurl" = .youtube :=
  ⟨(claim_C7_route_resolution "notaurl").2.2.2.1 (by decide),
   (claim_C7_route_resolution "notaurl").1⟩

/-- C3: `parseExternalDeepLink` rejects (returns `none`, the model of a
silent `null`; the function is total, so it cannot throw) whenever the
input is empty or longer than 4096 characters, fails to parse as a URL, or
parses with a scheme other than `youwee:`, a host other than `download`,
or a `v` query parameter other than the literal `1`. -/
theorem claim_C3_deeplink_rejection :
    ∀ (isSafeUrl : String → Bool) (raw : String),
      (raw = "" ∨ strLength raw > 4096 ∨ parseURL raw = none
        ∨ (∃ p, parseURL raw = some p
            ∧ (protocol p ≠ "youwee:" ∨ hostname p ≠ "download"
                ∨ getParam p "v" ≠ some "1"))) →
      parseExternalDeepLink isSafeUrl raw = none := by
  intro isSafe raw hcond
  simp only [parseExternalDeepLink]
  by_cases hlen : raw = "" ∨ strLength raw > MAX_EXTERNAL_DEEPLINK_LENGTH
  · rw [if_pos hlen]
  · rw [if_neg hlen]
    rcases hcond with h|h|h|⟨p, hp, hbad⟩
    · exact absurd (Or.inl h) hlen
    · exact absurd (Or.inr (by simpa [MAX_EXTERNAL_DEEPLINK_LENGTH] using h)) hlen
    · rw [h]
    · rw [hp]
      simp only
      rcases hbad with hb|hb|hb
      · rw [if_pos (Or.inl hb)]
      · rw [if_pos (Or.inr hb)]
      · by_cases hfirst : protocol p ≠ "youwee:" ∨ hostname p ≠ "download"
        · rw [if_pos hfirst]
        · rw [if_neg hfirst, if_pos hb]

/-- C3 witness: concrete rejections (empty input; wrong scheme). -/
theorem claim_C3_deeplink_rejection_witness :
    parseExternalDeepLink (fun _ => true) "" = none
    ∧ parseExternalDeepLink (fun _ => true) "https://download?v=1" = none :=
  ⟨claim_C3_deeplink_rejection (fun _ => true) "" (Or.inl rfl),
   claim_C3_deeplink_rejection (fun _ => true) "https://download?v=1"
     (Or.inr (Or.inr (Or.inr ⟨⟨['h','t','t','p','s'], ['d','o','w','n','l','o','a','d'],
       [], [(['v'], ['1'])]⟩, by decide, Or.inl (by decide)⟩)))⟩

/-- C1: every request produced by `parseExternalDeepLink` carries a `url`
that satisfied `isPublicHttpUrl` at construction time: it parses as a URL,
its scheme is `http` or `https`, and its hostname is not classified
private/local. -/
theorem claim_C1_request_url_public :
    ∀ (isSafeUrl : String → Bool) (raw : String) (req : ExternalLinkRequest),
      parseExternalDeepLink isSafeUrl raw = some req →
      isPublicHttpUrl req.url = true
      ∧ ∃ p, parseURL req.url = some p
          ∧ (protocol p = "http:" ∨ protocol p = "https:")
          ∧ isPrivateOrLocalHost (hostname p) = false := by
  intro isSafe raw req h
  obtain ⟨parsed, u0, hp, hu, hurl, hpub, henq⟩ :=
    parseExternalDeepLink_some_inv isSafe raw req h
  exact ⟨hpub, isPublicHttpUrl_spec req.url hpub⟩

set_option maxHeartbeats 4000000 in
/-- C1 witness: the invariant at a concretely accepted deep link. -/
theorem claim_C1_request_url_public_witness :
    isPublicHttpUrl "https://youtube.com/watch?v=abc" = true :=
  (claim_C1_request_url_public (fun _ => true)
    "youwee://download?v=1&url=https://youtube.com/watch?v=abc"
    { raw := "youwee://download?v=1&url=https://youtube.com/watch?v=abc"
      url := "https://youtube.com/watch?v=abc"
      target := .auto
      action := .download_now
      enqueueOptions := .video "best"
      source := none } (by decide)).1

/-- C9: the enqueue options of every accepted deep link are the audio
variant `{ mediaType: audio, quality: audio, audioBitrate }` exactly when
the `media` parameter is the literal `audio` (bitrate `128` iff the
`quality` parameter is literally `128`, else `auto`); otherwise the video
variant whose quality is the `quality` parameter when it belongs to the
fixed set and `best` otherwise — unrecognized values fall back silently
rather than rejecting the link. -/
theorem claim_C9_enqueue_options :
    ∀ (isSafeUrl : String → Bool) (raw : String) (req : ExternalLinkRequest),
      parseExternalDeepLink isSafeUrl raw = some req →
      ∃ p, parseURL raw = some p
        ∧ req.enqueueOptions = parseEnqueueOptions p
        ∧ (getParam p "media" = some "audio" →
            req.enqueueOptions = .audio "audio"
              (if getParam p "quality" = some "128" then "128" else "auto"))
        ∧ (getParam p "media" ≠ some "audio" →
            ∃ q, req.enqueueOptions = .video q
              ∧ ((getParam p "quality").getD "" ∈ allowedVideoQualities →
                  q = (getParam p "quality").getD "")
              ∧ ((getParam p "quality").getD "" ∉ allowedVideoQualities →
                  q = "best")) := by
  intro isSafe raw req h
  obtain ⟨parsed, u0, hp, hu, hurl, hpub, henq⟩ :=
    parseExternalDeepLink_some_inv isSafe raw req h
  refine ⟨parsed, hp, henq, ?_, ?_⟩
  · intro hm
    rw [henq]
    simp only [parseEnqueueOptions, hm]
    cases hq : getParam parsed "quality" with
    | none => simp
    | some s =>
      by_cases hs : s = "128"
      · simp [hs]
      · simp [hs, Option.getD]
  · intro hm
    rw [henq]
    simp only [parseEnqueueOptions]
    rw [if_neg hm]
    rw [if_neg (by simp)]
    by_cases hin : (getParam parsed "quality").getD "" ∈ allowedVideoQualities
    · exact ⟨_, by rw [if_pos hin], fun _ => rfl, fun hout => absurd hin hout⟩
    · exact ⟨_, by rw [if_neg hin], fun hin' => absurd hin' hin, fun _ => rfl⟩

set_option maxHeartbeats 4000000 in
/-- C9 witness: the audio variant derived from a concretely accepted deep
link requesting `media=audio&quality=128`. -/
theorem claim_C9_enqueue_options_witness :
    ∃ p, parseURL "youwee://download?v=1&url=https://example.com/a&media=audio&quality=128"
        = some p
      ∧ (ExternalEnqueueOptions.audio "audio" "128" = parseEnqueueOptions p) := by
  obtain ⟨p, hp, henq, haud, _⟩ :=
    claim_C9_enqueue_options (fun _ => true)
      "youwee://download?v=1&url=https://example.com/a&media=audio&quality=128"
      { raw := "youwee://download?v=1&url=https://example.com/a&media=audio&quality=128"
        url := "https://example.com/a"
        target := .auto
        action := .download_now
        enqueueOptions := .audio "audio" "128"
        source := none } (by decide)
  exact ⟨p, hp, by rw [← henq]⟩

/-- C8: `normalizeExternalVideoUrl` is idempotent — re-normalizing its
output yields the same string — and hence re-normalizing the `url` field
of any `parseExternalDeepLink` result yields the same string. -/
theorem claim_C8_normalize_idempotent :
    (∀ url, normalizeExternalVideoUrl (normalizeExternalVideoUrl url)
        = normalizeExternalVideoUrl url)
    ∧ (∀ (isSafeUrl : String → Bool) (raw : String) (req : ExternalLinkRequest),
        parseExternalDeepLink isSafeUrl raw = some req →
        normalizeExternalVideoUrl req.url = req.url) := by
  refine ⟨normalize_idem_main, ?_⟩
  intro isSafe raw req h
  obtain ⟨parsed, u0, hp, hu, hurl, hpub, henq⟩ :=
    parseExternalDeepLink_some_inv isSafe raw req h
  rw [hurl]
  exact normalize_idem_main (strTrim u0)

set_option maxHeartbeats 4000000 in
/-- C8 witness: re-normalizing the url of a concretely accepted deep link
is the identity. -/
theorem claim_C8_normalize_idempotent_witness :
    normalizeExternalVideoUrl "https://youtube.com/watch?v=abc"
      = "https://youtube.com/watch?v=abc" :=
  claim_C8_normalize_idempotent.2 (fun _ => true)
    "youwee://download?v=1&url=https://youtube.com/watch?v=abc"
    { raw := "youwee://download?v=1&url=https://youtube.com/watch?v=abc"
      url := "https://youtube.com/watch?v=abc"
      target := .auto
      action := .download_now
      enqueueOptions := .video "best"
      source := none } (by decide)

end Youwee
